import Mathlib

/-!
Verification development for the fct-miner autonomous mining core.

The TypeScript sources are embedded shallowly:
* bigint values become ℤ; bigint division (truncation toward zero) becomes
  Int.tdiv; JavaScript Math.floor division of non-negative numbers becomes
  Int.fdiv (floor division).
* JavaScript numbers that hold byte sizes are integers in every reachable
  call, so they are embedded as ℤ; the two floating-point quantities the
  claims touch (the efficiency percentage and the ETH-denominated budget
  comparison of budgetRule via formatEther/Number) are embedded as exact
  rationals ℚ - IEEE-754 rounding of those advisory values is abstracted.
* async rules are pure Bool predicates: the source rules only log besides
  returning their boolean, and Promise.all of pure functions is their list
  of values.
* the mining-engine retry loop is embedded with an explicit fuel argument
  that dominates the remaining iteration count, so the definition is
  structurally recursive and computable.
-/

namespace FctMiner

/-- RuntimeContext from auto-miner.ts: the immutable per-cycle snapshot.
The Date timestamp is kept abstract as a number and ethPriceUsd as an exact
rational; neither is touched by the claims under proof. -/
structure RuntimeContext where
  currentGasPrice : ℤ
  currentBaseFee : ℤ
  currentMintRate : ℤ
  dexSpotPrice : Option ℤ
  sessionSpent : ℤ
  sessionMined : ℤ
  timestamp : ℕ
  ethPriceUsd : ℚ

/-- MiningStrategy enum from auto-miner.ts. -/
inductive MiningStrategy where
  | AUTO
  | ARBITRAGE

/-- Return record of calculateFctOutput (fct-calculator). -/
structure FctOutput where
  calldataGas : ℤ
  fctMinted : ℤ
  efficiency : ℚ
  totalGas : ℤ
  ethBurned : ℤ
  costPerFct : ℤ

/-- calculateFctOutput from the fct-calculator module, field for field:
mineBoostSize = max(dataSize - 160, 0); calldataGas is the override when
supplied, else mineBoostSize * 40 (all non-zero bytes); totalGas adds the
21000 base execution gas; fctMinted = calldataGas * baseFee * mintRate;
efficiency = calldataGas / totalGas * 100 (a JS float, embedded as ℚ);
ethBurned = totalGas * (gasPrice ?? baseFee); costPerFct is the guarded
truncating bigint division (ethBurned * 10^18) / fctMinted, 0 when
fctMinted is not positive. -/
def calculateFctOutput (dataSize baseFee mintRate : ℤ)
    (calldataGasOverride gasPrice : Option ℤ) : FctOutput :=
  let baseExecutionGas : ℤ := 21000
  let overheadBytes : ℤ := 160
  let mineBoostSize : ℤ := max (dataSize - overheadBytes) 0
  let calldataGas : ℤ := calldataGasOverride.getD (mineBoostSize * 40)
  let totalGas : ℤ := calldataGas + baseExecutionGas
  let fctMinted : ℤ := calldataGas * baseFee * mintRate
  let efficiency : ℚ := ((calldataGas : ℚ) / (totalGas : ℚ)) * 100
  let effectiveGasPrice : ℤ := gasPrice.getD baseFee
  let ethBurned : ℤ := totalGas * effectiveGasPrice
  let costPerFct : ℤ :=
    if 0 < fctMinted then (ethBurned * 10 ^ 18).tdiv fctMinted else 0
  ⟨calldataGas, fctMinted, efficiency, totalGas, ethBurned, costPerFct⟩

/-- calculateCostPerFct helper from auto-miner.ts: projected cost per FCT
at the fixed 50 KiB estimation size, using the context gas price for the
cost side. -/
def calculateCostPerFct (ctx : RuntimeContext) : ℤ :=
  let dataSize : ℤ := 50 * 1024
  (calculateFctOutput dataSize ctx.currentBaseFee ctx.currentMintRate
    none (some ctx.currentGasPrice)).costPerFct

/-- The projected cost (ethBurned) of a candidate size under a context, as
getOptimalDataSize computes it: baseFee and mintRate from the context and
the context gas price supplied for the cost side. -/
def projectedCost (ctx : RuntimeContext) (size : ℤ) : ℤ :=
  (calculateFctOutput size ctx.currentBaseFee ctx.currentMintRate
    none (some ctx.currentGasPrice)).ethBurned

/-- budgetRule from auto-miner.ts: passes when the session spend, converted
from wei to ETH, is strictly below the configured ETH budget.
Number(formatEther(wei)) is embedded as the exact rational wei / 10^18. -/
def budgetRule (maxEth : ℚ) (ctx : RuntimeContext) : Bool :=
  let spentEth : ℚ := (ctx.sessionSpent : ℚ) / 10 ^ 18
  decide (spentEth < maxEth)

/-- arbitrageRule from auto-miner.ts. The JS guard
(!ctx.dexSpotPrice || !isMainnet()) treats both a missing spot price and a
zero spot price as falsy; isMainnet() reads process configuration and is
passed here as an explicit boolean. -/
def arbitrageRule (isMainnet : Bool) (ctx : RuntimeContext) : Bool :=
  match ctx.dexSpotPrice with
  | none => false
  | some price =>
    if price == 0 || !isMainnet then false
    else decide (calculateCostPerFct ctx < price)

/-- evaluateRules from auto-miner.ts: an empty rule list passes; otherwise
every rule must return true on the shared context (Promise.all of pure
predicates followed by Array.every). -/
def evaluateRules (rules : List (RuntimeContext → Bool))
    (ctx : RuntimeContext) : Bool :=
  if rules.length = 0 then true
  else (rules.map (fun rule => rule ctx)).all (fun result => result == true)

/-- The while-loop of getOptimalDataSize's budget branch: integer binary
search with inclusive bounds, mid = Math.floor((low + high) / 2), keeping
the last mid whose cost fits the budget and returning the initial optimal
(1 KiB in the caller) when no probed mid ever fits. -/
def bsearchGo (cost : ℤ → ℤ) (budget low high optimal : ℤ) : ℤ :=
  if h : low ≤ high then
    if cost ((low + high).fdiv 2) ≤ budget then
      bsearchGo cost budget ((low + high).fdiv 2 + 1) high ((low + high).fdiv 2)
    else
      bsearchGo cost budget low ((low + high).fdiv 2 - 1) optimal
  else optimal
termination_by (high + 1 - low).toNat
decreasing_by
  · have hm := Int.fdiv_eq_ediv (low + high) (by norm_num : (0 : ℤ) ≤ 2)
    rw [hm]
    omega
  · have hm := Int.fdiv_eq_ediv (low + high) (by norm_num : (0 : ℤ) ≤ 2)
    rw [hm]
    omega

/-- The strategy switch at the end of getOptimalDataSize: AUTO always uses
the max size; ARBITRAGE skips (0) without a truthy spot price and otherwise
mines the max size exactly when the projected mining cost per FCT is below
the spot price. -/
def strategySize (strategy : MiningStrategy) (ctx : RuntimeContext)
    (maxSize : ℤ) : ℤ :=
  match strategy with
  | .AUTO => maxSize
  | .ARBITRAGE =>
    match ctx.dexSpotPrice with
    | none => 0
    | some price =>
      if price == 0 then 0
      else if calculateCostPerFct ctx < price then maxSize else 0

/-- getOptimalDataSize from auto-miner.ts. When a remaining budget is
supplied and positive and the max size would overrun it, the binary search
over [1 KiB, maxSize] is returned directly; otherwise control falls through
to the strategy switch. -/
def getOptimalDataSize (strategy : MiningStrategy) (ctx : RuntimeContext)
    (maxKb : ℤ) (remainingBudget : Option ℤ) : ℤ :=
  let KB : ℤ := 1024
  let maxSize : ℤ := maxKb * KB
  match remainingBudget with
  | some budget =>
    if 0 < budget then
      if budget < (calculateFctOutput maxSize ctx.currentBaseFee
          ctx.currentMintRate none (some ctx.currentGasPrice)).ethBurned then
        bsearchGo
          (fun size => (calculateFctOutput size ctx.currentBaseFee
            ctx.currentMintRate none (some ctx.currentGasPrice)).ethBurned)
          budget (1 * KB) maxSize (1 * KB)
      else strategySize strategy ctx maxSize
    else strategySize strategy ctx maxSize
  | none => strategySize strategy ctx maxSize

/-- One session row of the JSON mining database (fields the claims need;
startedAt is the Date.now() millisecond clock). -/
structure SessionRow where
  id : ℕ
  startedAt : ℕ
  totalEthSpentWei : ℤ
  totalFctMinedWei : ℤ
  strategy : String
  status : String

/-- The persisted DatabaseData of mining-database-json. Runtime state
values are bigint decimal strings in the source; the toString/BigInt round
trip is abstracted and the values kept as ℤ. -/
structure DatabaseData where
  sessions : List SessionRow
  runtimeState : List (String × ℤ)
  nextSessionId : ℕ
  nextTransactionId : ℕ

/-- MiningDatabase.createSession: hands out nextSessionId, increments it,
and appends a fresh active session row with zero totals. -/
def createSession (db : DatabaseData) (now : ℕ) (strategy : String) :
    ℕ × DatabaseData :=
  let sessionId := db.nextSessionId
  (sessionId,
    { db with
      nextSessionId := db.nextSessionId + 1
      sessions := db.sessions ++ [⟨sessionId, now, 0, 0, strategy, "active"⟩] })

/-- MiningDatabase.getRuntimeState: the stored value for a key, or null. -/
def getRuntimeState (db : DatabaseData) (key : String) : Option ℤ :=
  db.runtimeState.lookup key

/-- The runtime-state key AutoMiner uses for a session's cumulative spend. -/
def sessionSpentKey (sessionId : ℕ) : String :=
  "session_" ++ toString sessionId ++ "_spent"

/-- The runtime-state key AutoMiner uses for a session's cumulative yield. -/
def sessionMinedKey (sessionId : ℕ) : String :=
  "session_" ++ toString sessionId ++ "_mined"

/-- The control-loop state right after AutoMiner.start's session setup. -/
structure StartState where
  sessionId : ℕ
  sessionSpent : ℤ
  sessionMined : ℤ
  db : DatabaseData

/-- The session-setup prefix of AutoMiner.start: create a session, then
look up recovery state under the keys of the session id just created; a
found value replaces the zero-initialized counter. -/
def autoMinerStartRestore (db : DatabaseData) (now : ℕ) (strategy : String) :
    StartState :=
  let created := createSession db now strategy
  let sessionId := created.1
  let db1 := created.2
  let savedSpent := getRuntimeState db1 (sessionSpentKey sessionId)
  let savedMined := getRuntimeState db1 (sessionMinedKey sessionId)
  ⟨sessionId, savedSpent.getD 0, savedMined.getD 0, db1⟩

/-- The observable trace of one MiningEngine.mine call: the outcome (a
result, or the last recorded error - none when no attempt ran), how many
attempts were made, and the backoff delays in milliseconds that were slept
between consecutive attempts. -/
structure MineTrace (E R : Type) where
  outcome : Except (Option E) R
  attempts : ℕ
  delays : List ℕ

/-- The retry for-loop of MiningEngine.mine. attemptIdx runs from 0 while
it is below maxRetries; a successful attempt returns immediately; a failed
attempt records the error and, when it is not the last allowed attempt,
sleeps min(1000 * 2^attemptIdx, 30000) ms. The fuel argument only makes the
recursion structural; mine supplies more fuel than iterations. -/
def mineGo {E R : Type} (f : ℕ → Except E R) (maxRetries : ℕ) :
    ℕ → ℕ → Option E → MineTrace E R
  | 0, _, lastError => ⟨Except.error lastError, 0, []⟩
  | fuel + 1, attemptIdx, lastError =>
    if attemptIdx < maxRetries then
      match f attemptIdx with
      | Except.ok r => ⟨Except.ok r, 1, []⟩
      | Except.error e =>
        let rest := mineGo f maxRetries fuel (attemptIdx + 1) (some e)
        ⟨rest.outcome, 1 + rest.attempts,
          if attemptIdx < maxRetries - 1 then
            min (1000 * 2 ^ attemptIdx) 30000 :: rest.delays
          else rest.delays⟩
    else ⟨Except.error lastError, 0, []⟩

/-- MiningEngine.mine: maxRetries defaults to 3 (config.maxRetries ?? 3);
after exhausting all attempts the last error is surfaced to the caller. -/
def mine {E R : Type} (f : ℕ → Except E R) (maxRetries : Option ℕ) :
    MineTrace E R :=
  let retries := maxRetries.getD 3
  mineGo f retries (retries + 1) 0 none

/-- Concrete context: unit base fee, mint rate and gas price, no DEX spot
price, nothing spent or mined yet. -/
def ctxA : RuntimeContext :=
  ⟨1, 1, 1, none, 0, 0, 0, 0⟩

/-- Concrete context with a DEX spot price of 10^19 wei per FCT, far above
the projected mining cost per FCT at unit network conditions. -/
def ctxD : RuntimeContext :=
  ⟨1, 1, 1, some (10 ^ 19), 0, 0, 0, 0⟩

/-- Concrete context whose session spend is exactly 1 ETH in wei. -/
def ctxB : RuntimeContext :=
  ⟨1, 1, 1, none, 10 ^ 18, 0, 0, 0⟩

/-- Concrete database left behind by a crashed session 1 that had persisted
recovery state (spend 500 wei, yield 300 wei) before dying. -/
def db0 : DatabaseData :=
  ⟨[⟨1, 0, 500, 300, "auto", "active"⟩],
   [(sessionSpentKey 1, 500), (sessionMinedKey 1, 300)],
   2, 1⟩

theorem projectedCost_shape (ctx : RuntimeContext) (size : ℤ) :
    projectedCost ctx size =
      (max (size - 160) 0 * 40 + 21000) * ctx.currentGasPrice := by
  simp [projectedCost, calculateFctOutput]

theorem projectedCost_mono (ctx : RuntimeContext)
    (hgp : 0 ≤ ctx.currentGasPrice) :
    ∀ a b : ℤ, a ≤ b → projectedCost ctx a ≤ projectedCost ctx b := by
  intro a b hab
  rw [projectedCost_shape, projectedCost_shape]
  have hcg : max (a - 160) 0 ≤ max (b - 160) 0 := max_le_max (by omega) le_rfl
  exact mul_le_mul_of_nonneg_right (by nlinarith) hgp

theorem bsearchGo_spec (cost : ℤ → ℤ) (budget hi0 : ℤ)
    (hmono : ∀ a b : ℤ, a ≤ b → cost a ≤ cost b) :
    ∀ (n : ℕ) (low high optimal : ℤ),
      (high + 1 - low).toNat ≤ n →
      cost optimal ≤ budget →
      low - 1 ≤ optimal →
      (∀ s : ℤ, high < s → s ≤ hi0 → budget < cost s) →
      cost (bsearchGo cost budget low high optimal) ≤ budget ∧
        (∀ s : ℤ, bsearchGo cost budget low high optimal < s → s ≤ hi0 →
          budget < cost s) := by
  intro n
  induction n with
  | zero =>
    intro low high optimal hfuel hopt hlow hiv
    have hnl : ¬ low ≤ high := by omega
    rw [bsearchGo, dif_neg hnl]
    exact ⟨hopt, fun s hs hshi => hiv s (by omega) hshi⟩
  | succ n ih =>
    intro low high optimal hfuel hopt hlow hiv
    by_cases hlh : low ≤ high
    · rw [bsearchGo, dif_pos hlh]
      have hm2 : (low + high).fdiv 2 = (low + high) / 2 :=
        Int.fdiv_eq_ediv _ (by norm_num)
      have hmlow : low ≤ (low + high).fdiv 2 := by rw [hm2]; omega
      have hmhigh : (low + high).fdiv 2 ≤ high := by rw [hm2]; omega
      by_cases hc : cost ((low + high).fdiv 2) ≤ budget
      · rw [if_pos hc]
        exact ih ((low + high).fdiv 2 + 1) high ((low + high).fdiv 2)
          (by omega) hc (by omega) hiv
      · rw [if_neg hc]
        refine ih low ((low + high).fdiv 2 - 1) optimal (by omega) hopt hlow ?_
        intro s hs hshi
        exact lt_of_lt_of_le (not_le.mp hc)
          (hmono ((low + high).fdiv 2) s (by omega))
    · rw [bsearchGo, dif_neg hlh]
      exact ⟨hopt, fun s hs hshi => hiv s (by omega) hshi⟩

theorem bsearchGo_all_over (cost : ℤ → ℤ) (budget : ℤ)
    (h : ∀ s : ℤ, budget < cost s) :
    ∀ (n : ℕ) (low high optimal : ℤ), (high + 1 - low).toNat ≤ n →
      bsearchGo cost budget low high optimal = optimal := by
  intro n
  induction n with
  | zero =>
    intro low high optimal hfuel
    rw [bsearchGo, dif_neg (by omega)]
  | succ n ih =>
    intro low high optimal hfuel
    by_cases hlh : low ≤ high
    · rw [bsearchGo, dif_pos hlh]
      have hm2 : (low + high).fdiv 2 = (low + high) / 2 :=
        Int.fdiv_eq_ediv _ (by norm_num)
      rw [if_neg (not_le.mpr (h _))]
      exact ih low ((low + high).fdiv 2 - 1) optimal (by rw [hm2]; omega)
    · rw [bsearchGo, dif_neg hlh]

theorem ctxA_cost_over_one : ∀ s : ℤ, (1 : ℤ) < projectedCost ctxA s := by
  intro s
  rw [projectedCost_shape ctxA s]
  have h0 : (0 : ℤ) ≤ max (s - 160) 0 := le_max_right _ _
  show (1 : ℤ) < (max (s - 160) 0 * 40 + 21000) * 1
  nlinarith [h0]

theorem all_beq_eq_foldr_and (l : List Bool) :
    l.all (fun result => result == true) =
      l.foldr (fun a b => a && b) true := by
  induction l with
  | nil => rfl
  | cons b bs ih => simp [List.all_cons, ← ih]

/-- Claim C3 (amended): whenever calculateFctOutput mints zero FCT its
cost-per-FCT is the guarded 0 - division by zero yield never occurs. (The
converse direction of the original claim is false, see the
counterexample.) -/
theorem C3_costPerFct_zero_of_no_yield (dataSize baseFee mintRate : ℤ)
    (ov gp : Option ℤ)
    (h : (calculateFctOutput dataSize baseFee mintRate ov gp).fctMinted = 0) :
    (calculateFctOutput dataSize baseFee mintRate ov gp).costPerFct = 0 := by
  simp only [calculateFctOutput] at h ⊢
  rw [if_neg]
  omega

/-- Witness for C3 at a concrete all-overhead input. -/
theorem C3_costPerFct_zero_of_no_yield_witness :
    (calculateFctOutput 100 1 1 none none).costPerFct = 0 :=
  C3_costPerFct_zero_of_no_yield 100 1 1 none none (by decide)

/-- Counterexample to claim C3 as stated: with dataSize 161, baseFee 1,
mintRate 1 and an explicit gas price of 0, the function mints 40 FCT-wei
yet reports costPerFct = 0, so costPerFct = 0 is not equivalent to
fctMinted = 0. -/
theorem C3_claim_counterexample :
    (calculateFctOutput 161 1 1 none (some 0)).costPerFct = 0 ∧
      (calculateFctOutput 161 1 1 none (some 0)).fctMinted ≠ 0 := by
  decide

/-- Claim C5: at fixed base fee, mint rate and optional gas price - all
non-negative, as the data model requires of monetary fields - both the
projected cost (ethBurned) and the projected yield (fctMinted) of
calculateFctOutput are monotone non-decreasing in the data size. -/
theorem C5_calculateFctOutput_monotone (s1 s2 baseFee mintRate : ℤ)
    (gp : Option ℤ) (hs : s1 < s2) (hbf : 0 ≤ baseFee) (hmr : 0 ≤ mintRate)
    (hgp : 0 ≤ gp.getD baseFee) :
    (calculateFctOutput s1 baseFee mintRate none gp).ethBurned ≤
        (calculateFctOutput s2 baseFee mintRate none gp).ethBurned ∧
      (calculateFctOutput s1 baseFee mintRate none gp).fctMinted ≤
        (calculateFctOutput s2 baseFee mintRate none gp).fctMinted := by
  simp only [calculateFctOutput, Option.getD_none]
  have hcg : max (s1 - 160) 0 * 40 ≤ max (s2 - 160) 0 * 40 := by
    have := max_le_max (sub_le_sub_right hs.le 160) (le_refl (0 : ℤ))
    nlinarith
  constructor
  · exact mul_le_mul_of_nonneg_right (by linarith) hgp
  · exact mul_le_mul_of_nonneg_right
      (mul_le_mul_of_nonneg_right hcg hbf) hmr

/-- Witness for C5 at concrete sizes 1000 < 2000. -/
theorem C5_calculateFctOutput_monotone_witness :
    (calculateFctOutput 1000 1 1 none (some 2)).ethBurned ≤
        (calculateFctOutput 2000 1 1 none (some 2)).ethBurned ∧
      (calculateFctOutput 1000 1 1 none (some 2)).fctMinted ≤
        (calculateFctOutput 2000 1 1 none (some 2)).fctMinted :=
  C5_calculateFctOutput_monotone 1000 2000 1 1 (some 2) (by decide)
    (by decide) (by decide) (by decide)

/-- Claim C6: evaluateRules with no rules passes every context, and with
rules R1..Rn it is exactly the conjunction of the rules' results on the
same context. -/
theorem C6_evaluateRules_conjunction (rules : List (RuntimeContext → Bool))
    (ctx : RuntimeContext) :
    evaluateRules [] ctx = true ∧
      evaluateRules rules ctx =
        (rules.map (fun rule => rule ctx)).foldr (fun a b => a && b) true := by
  refine ⟨rfl, ?_⟩
  cases rules with
  | nil => rfl
  | cons r rs =>
    simp only [evaluateRules, List.length_cons]
    rw [if_neg (by simp)]
    exact all_beq_eq_foldr_and _

/-- Claim C7: when every attempt fails and the retry count is the default
3, MiningEngine.mine makes exactly 3 attempts, sleeps 1000 ms then 2000 ms
between consecutive attempts (min(1000 * 2^attempt, 30000)), and surfaces
the last attempt's error. -/
theorem C7_mine_retries_exhaust {E R : Type} (err : ℕ → E) :
    mine (fun attempt => (Except.error (err attempt) : Except E R)) none =
      ⟨Except.error (some (err 2)), 3, [1000, 2000]⟩ :=
  rfl

/-- Claim C8: budgetRule passes exactly when the cumulative session spend
(in wei) is strictly below the daily budget (in ETH, scaled to wei), and at
the exact boundary the rule fails. -/
theorem C8_budgetRule_strict_boundary (maxEth : ℚ) (ctx : RuntimeContext) :
    (budgetRule maxEth ctx = true ↔
        (ctx.sessionSpent : ℚ) < maxEth * 10 ^ 18) ∧
      ((ctx.sessionSpent : ℚ) = maxEth * 10 ^ 18 →
        budgetRule maxEth ctx = false) := by
  have hpow : (0 : ℚ) < 10 ^ 18 := by positivity
  constructor
  · simp [budgetRule, div_lt_iff₀ hpow]
  · intro h
    simp [budgetRule, div_lt_iff₀ hpow, h]

/-- Claim C10: for any data size at or below the 160-byte overhead,
calculateFctOutput reports zero calldata gas, zero yield, zero
cost-per-FCT and zero efficiency, while ethBurned is still the full base
execution cost 21000 times the effective gas price. -/
theorem C10_small_size_overhead_only (dataSize baseFee mintRate : ℤ)
    (gp : Option ℤ) (h : dataSize ≤ 160) :
    (calculateFctOutput dataSize baseFee mintRate none gp).calldataGas = 0 ∧
      (calculateFctOutput dataSize baseFee mintRate none gp).fctMinted = 0 ∧
      (calculateFctOutput dataSize baseFee mintRate none gp).costPerFct = 0 ∧
      (calculateFctOutput dataSize baseFee mintRate none gp).efficiency = 0 ∧
      (calculateFctOutput dataSize baseFee mintRate none gp).ethBurned =
        21000 * gp.getD baseFee := by
  have hmax : max (dataSize - 160) 0 = 0 := max_eq_right (by omega)
  simp [calculateFctOutput, hmax]

/-- Witness for C10 at the boundary size 160 with a supplied gas price. -/
theorem C10_small_size_overhead_only_witness :
    (calculateFctOutput 160 5 7 none (some 3)).calldataGas = 0 ∧
      (calculateFctOutput 160 5 7 none (some 3)).fctMinted = 0 ∧
      (calculateFctOutput 160 5 7 none (some 3)).costPerFct = 0 ∧
      (calculateFctOutput 160 5 7 none (some 3)).efficiency = 0 ∧
      (calculateFctOutput 160 5 7 none (some 3)).ethBurned =
        21000 * (some (3 : ℤ)).getD 5 :=
  C10_small_size_overhead_only 160 5 7 (some 3) (by decide)

/-- Claim C1 (amended): when a positive remaining budget is supplied, the
projected cost at max size overruns it, and - the amendment - the
projected cost at the search floor of 1 KiB fits it, the returned size's
projected cost is within the budget and the size one byte larger would
overrun it. (Without the amendment the claim fails: the search never goes
below 1 KiB and returns 1024 even when that does not fit, see the
counterexample.) -/
theorem C1_budget_search_fit_tight (strategy : MiningStrategy)
    (ctx : RuntimeContext) (maxKb budget : ℤ) (hpos : 0 < budget)
    (hover : budget < projectedCost ctx (maxKb * 1024))
    (hfit : projectedCost ctx 1024 ≤ budget) :
    projectedCost ctx (getOptimalDataSize strategy ctx maxKb (some budget)) ≤
        budget ∧
      budget <
        projectedCost ctx
          (getOptimalDataSize strategy ctx maxKb (some budget) + 1) := by
  have hgp : 0 < ctx.currentGasPrice := by
    by_contra hng
    push_neg at hng
    have h0 : projectedCost ctx (maxKb * 1024) ≤ 0 := by
      rw [projectedCost_shape]
      have h1 : (0 : ℤ) ≤ max (maxKb * 1024 - 160) 0 := le_max_right _ _
      nlinarith
    linarith
  have hmono := projectedCost_mono ctx hgp.le
  have hover' : budget < (calculateFctOutput (maxKb * 1024)
      ctx.currentBaseFee ctx.currentMintRate none
      (some ctx.currentGasPrice)).ethBurned := hover
  have heq : getOptimalDataSize strategy ctx maxKb (some budget) =
      bsearchGo (projectedCost ctx) budget (1 * 1024) (maxKb * 1024)
        (1 * 1024) := by
    simp only [getOptimalDataSize]
    rw [if_pos hpos, if_pos hover']
    rfl
  have hfit' : projectedCost ctx (1 * 1024) ≤ budget := by
    rw [show ((1 : ℤ) * 1024) = 1024 by norm_num]
    exact hfit
  have hiv : ∀ s : ℤ, maxKb * 1024 < s → s ≤ maxKb * 1024 →
      budget < projectedCost ctx s :=
    fun s hs1 hs2 => absurd hs1 (not_lt.mpr hs2)
  obtain ⟨h1, h2⟩ := bsearchGo_spec (projectedCost ctx) budget
    (maxKb * 1024) hmono ((maxKb * 1024 + 1 - 1 * 1024).toNat) (1 * 1024)
    (maxKb * 1024) (1 * 1024) le_rfl hfit' (by omega) hiv
  rw [heq]
  set r := bsearchGo (projectedCost ctx) budget (1 * 1024) (maxKb * 1024)
    (1 * 1024) with hr
  have hrlt : r < maxKb * 1024 := by
    by_contra hge
    push_neg at hge
    exact absurd (le_trans (hmono _ _ hge) h1) (not_le.mpr hover)
  exact ⟨h1, h2 (r + 1) (by omega) (by omega)⟩

/-- Witness for C1: budget 60000 wei at unit conditions and max size 2 KiB
yields a size whose cost fits tightly. -/
theorem C1_budget_search_fit_tight_witness :
    projectedCost ctxA
        (getOptimalDataSize MiningStrategy.AUTO ctxA 2 (some 60000)) ≤
        60000 ∧
      60000 < projectedCost ctxA
        (getOptimalDataSize MiningStrategy.AUTO ctxA 2 (some 60000) + 1) :=
  C1_budget_search_fit_tight MiningStrategy.AUTO ctxA 2 60000 (by decide)
    (by decide) (by decide)

/-- Counterexample to claim C1 as stated: with budget 1 wei (positive) and
max size 2 KiB at unit conditions the projected cost at max size exceeds
the budget, yet the optimizer returns the 1 KiB floor, whose projected
cost 55560 wei also exceeds the budget. -/
theorem C1_claim_counterexample :
    (0 : ℤ) < 1 ∧ 1 < projectedCost ctxA (2 * 1024) ∧
      ¬ projectedCost ctxA
          (getOptimalDataSize MiningStrategy.AUTO ctxA 2 (some 1)) ≤ 1 := by
  refine ⟨by decide, by decide, ?_⟩
  have heq : getOptimalDataSize MiningStrategy.AUTO ctxA 2 (some 1) =
      bsearchGo (projectedCost ctxA) 1 (1 * 1024) (2 * 1024) (1 * 1024) := by
    have hc : (1 : ℤ) < (calculateFctOutput (2 * 1024) ctxA.currentBaseFee
        ctxA.currentMintRate none (some ctxA.currentGasPrice)).ethBurned :=
      ctxA_cost_over_one (2 * 1024)
    simp only [getOptimalDataSize]
    rw [if_pos (by decide : (0 : ℤ) < 1), if_pos hc]
    rfl
  rw [heq, bsearchGo_all_over (projectedCost ctxA) 1 ctxA_cost_over_one
    2000 (1 * 1024) (2 * 1024) (1 * 1024) (by decide)]
  decide

/-- Claim C2 (amended): with the arbitrage strategy and no spot price the
optimizer returns 0 provided the budget branch does not fire (no remaining
budget, a non-positive one, or one the max size already fits). (The
original "regardless of all other parameters" fails: a positive remaining
budget below the max-size cost makes the budget branch return its search
result before the strategy is ever consulted, see the counterexample.) -/
theorem C2_arbitrage_no_spot_zero (ctx : RuntimeContext) (maxKb : ℤ)
    (rb : Option ℤ) (hspot : ctx.dexSpotPrice = none)
    (hnb : rb = none ∨ ∃ b, rb = some b ∧
      (b ≤ 0 ∨ projectedCost ctx (maxKb * 1024) ≤ b)) :
    getOptimalDataSize MiningStrategy.ARBITRAGE ctx maxKb rb = 0 := by
  have hstrat : strategySize MiningStrategy.ARBITRAGE ctx (maxKb * 1024) = 0 := by
    simp [strategySize, hspot]
  rcases hnb with hnone | ⟨b, hb, hcase⟩
  · subst hnone
    simp only [getOptimalDataSize]
    exact hstrat
  · subst hb
    rcases hcase with hle | hcost
    · simp only [getOptimalDataSize]
      rw [if_neg (not_lt.mpr hle)]
      exact hstrat
    · have hcost' : ¬ b < (calculateFctOutput (maxKb * 1024)
          ctx.currentBaseFee ctx.currentMintRate none
          (some ctx.currentGasPrice)).ethBurned := not_lt.mpr hcost
      simp only [getOptimalDataSize]
      by_cases hbpos : 0 < b
      · rw [if_pos hbpos, if_neg hcost']
        exact hstrat
      · rw [if_neg hbpos]
        exact hstrat

/-- Witness for C2: arbitrage with no spot price and no remaining budget
skips the cycle. -/
theorem C2_arbitrage_no_spot_zero_witness :
    getOptimalDataSize MiningStrategy.ARBITRAGE ctxA 1 none = 0 :=
  C2_arbitrage_no_spot_zero ctxA 1 none rfl (Or.inl rfl)

/-- Counterexample to claim C2 as stated: arbitrage strategy, no spot
price, but a positive remaining budget of 1 wei below the max-size cost;
the optimizer returns 1024, not 0. -/
theorem C2_claim_counterexample :
    ctxA.dexSpotPrice = none ∧
      getOptimalDataSize MiningStrategy.ARBITRAGE ctxA 1 (some 1) ≠ 0 := by
  refine ⟨rfl, ?_⟩
  have heq : getOptimalDataSize MiningStrategy.ARBITRAGE ctxA 1 (some 1) =
      bsearchGo (projectedCost ctxA) 1 (1 * 1024) (1 * 1024) (1 * 1024) := by
    have hc : (1 : ℤ) < (calculateFctOutput (1 * 1024) ctxA.currentBaseFee
        ctxA.currentMintRate none (some ctxA.currentGasPrice)).ethBurned :=
      ctxA_cost_over_one (1 * 1024)
    simp only [getOptimalDataSize]
    rw [if_pos (by decide : (0 : ℤ) < 1), if_pos hc]
    rfl
  rw [heq, bsearchGo_all_over (projectedCost ctxA) 1 ctxA_cost_over_one
    2000 (1 * 1024) (1 * 1024) (1 * 1024) (by decide)]
  decide

/-- Claim C4 (code bug): AutoMiner.start first creates a fresh session and
then reads recovery state under the fresh session's own keys, which a
prior (crashed) session can never have written; for db0 - a database
holding session 1's persisted counters 500/300 - the restarted miner's
counters are 0 and 0, not the saved values, although the saved recovery
state is present and readable under session 1's keys. -/
theorem C4_recovery_never_restores :
    (autoMinerStartRestore db0 17 "auto").sessionSpent = 0 ∧
      (autoMinerStartRestore db0 17 "auto").sessionMined = 0 ∧
      getRuntimeState db0 (sessionSpentKey 1) = some 500 ∧
      getRuntimeState db0 (sessionMinedKey 1) = some 300 := by
  decide

/-- Claim C9 (amended): arbitrageRule passes exactly when the miner is
configured for mainnet AND a spot price is present and non-zero AND the
projected mining cost per FCT is strictly below it; with no spot price it
always fails (fails closed). (The original claim omits the mainnet
condition and fails off mainnet, see the counterexample.) -/
theorem C9_arbitrageRule_spec (isMainnet : Bool) (ctx : RuntimeContext) :
    (arbitrageRule isMainnet ctx = true ↔
        isMainnet = true ∧ ∃ price, ctx.dexSpotPrice = some price ∧
          price ≠ 0 ∧ calculateCostPerFct ctx < price) ∧
      (ctx.dexSpotPrice = none → arbitrageRule isMainnet ctx = false) := by
  constructor
  · cases hsp : ctx.dexSpotPrice with
    | none => simp [arbitrageRule, hsp]
    | some price =>
      by_cases hp : price = 0
      · simp [arbitrageRule, hsp, hp]
      · cases isMainnet
        · simp [arbitrageRule, hsp, hp]
        · simp [arbitrageRule, hsp, hp]
  · intro h
    simp [arbitrageRule, h]

/-- Counterexample to claim C9 as stated: off mainnet, a context with an
ample spot price of 10^19 wei and a mining cost strictly below it still
fails the rule. -/
theorem C9_claim_counterexample :
    ctxD.dexSpotPrice = some (10 ^ 19) ∧
      calculateCostPerFct ctxD < 10 ^ 19 ∧
      arbitrageRule false ctxD = false := by
  decide

end FctMiner
